import Mathlib

/-
Verification of the chunked-frame reassembly core of the electra-debug-websocket
client: the MYIR header parser, the per-frame chunk assembler, the frame table
with garbage collection, and the FPS counter.  Each definition is a shallow
embedding of the corresponding TypeScript declaration; machine integers are
modelled as unbounded naturals (all protocol fields are at most 32 bits and JS
numbers are exact on that range), timestamps as integers, and a JS Uint8Array
as a fixed length together with a byte-valued index function.
-/

namespace ElectraWS

/-- Model of a JS Uint8Array: a fixed byte length together with the byte at
each index.  Indices at or beyond the length are irrelevant to observers, which
compare byte arrays only through the eqv relation below. -/
structure Bytes where
  data : Nat → Nat
  size : Nat

/-- Observational equality of two byte arrays: same length and same bytes at
every in-range index. -/
def Bytes.eqv (a b : Bytes) : Prop :=
  a.size = b.size ∧ ∀ i, i < a.size → a.data i = b.data i

/-- Model of buffer.set(src.subarray(0, n), off): overwrite the n bytes
starting at off with the first n bytes of src.  A JS TypedArray.set never
changes the length of the destination. -/
def Bytes.writeAt (b : Bytes) (off : Nat) (src : Bytes) (n : Nat) : Bytes :=
  ⟨fun i => if off ≤ i ∧ i < off + n then src.data (i - off) else b.data i, b.size⟩

/-- Model of buffer.slice(0, stop): a copy of the first stop bytes, with the
end index clamped to the buffer length as in JS. -/
def Bytes.slice0 (b : Bytes) (stop : Nat) : Bytes :=
  ⟨fun i => if i < min stop b.size then b.data i else 0, min stop b.size⟩

/-- Model of new Uint8Array(n): n bytes, zero-filled. -/
def Bytes.zeros (n : Nat) : Bytes :=
  ⟨fun _ => 0, n⟩

/-- The StreamInfo record returned by parseMyirHeader (extended variant,
with the payloadLen field). -/
structure StreamInfo where
  frameId : Nat
  chunkId : Nat
  chunksTotal : Nat
  frameSize : Nat
  width : Nat
  height : Nat
  payloadLen : Nat
deriving DecidableEq

/-- The StreamInfo record of the legacy client copy (32-byte header, no
payloadLen field). -/
structure StreamInfoLegacy where
  frameId : Nat
  chunkId : Nat
  chunksTotal : Nat
  frameSize : Nat
  width : Nat
  height : Nat
deriving DecidableEq

/-- DataView.getUint8: one byte of the datagram.  The parser only reads inside
the length it has already checked, so the default value is never observed. -/
def getU8 (d : List Nat) (i : Nat) : Nat :=
  d.getD i 0

/-- DataView.getUint16(i, false): big-endian 16-bit read. -/
def be16 (d : List Nat) (i : Nat) : Nat :=
  getU8 d i * 256 + getU8 d (i + 1)

/-- DataView.getUint32(i, false): big-endian 32-bit read. -/
def be32 (d : List Nat) (i : Nat) : Nat :=
  ((getU8 d i * 256 + getU8 d (i + 1)) * 256 + getU8 d (i + 2)) * 256 + getU8 d (i + 3)

/-- MYIR_MAGIC constant of the client. -/
def MYIR_MAGIC : Nat := 0x4d594952

/-- MYIR_VER constant of the client. -/
def MYIR_VER : Nat := 3

/-- parseMyirHeader, extended 36-byte variant: checks byte length, magic and
version, then decodes the fixed-offset big-endian fields.  The try/catch in
the source never fires after the length check; the embedding is total. -/
def parseMyirHeader (data : List Nat) : Option StreamInfo :=
  if data.length < 36 then none
  else if be32 data 0 ≠ MYIR_MAGIC then none
  else if getU8 data 4 ≠ MYIR_VER then none
  else some
    { frameId := be32 data 20
      chunkId := be16 data 28
      chunksTotal := be16 data 30
      frameSize := be32 data 24
      width := be16 data 8
      height := be16 data 10
      payloadLen := be16 data 32 }

/-- parseMyirHeader, legacy 32-byte variant (second copy in the source):
same checks and fields except that there is no payloadLen field and the
minimum length is 32 bytes. -/
def parseMyirHeaderLegacy (data : List Nat) : Option StreamInfoLegacy :=
  if data.length < 32 then none
  else if be32 data 0 ≠ MYIR_MAGIC then none
  else if getU8 data 4 ≠ MYIR_VER then none
  else some
    { frameId := be32 data 20
      chunkId := be16 data 28
      chunksTotal := be16 data 30
      frameSize := be32 data 24
      width := be16 data 8
      height := be16 data 10 }

/-- Model of new Uint8Array(buffer, 36, payloadLen) in processBuffer: JS
raises a RangeError exactly when the requested view extends past the end of
the ArrayBuffer, that is when 36 + payloadLen exceeds the byte length; none
models the raise. -/
def payloadView (buffer : List Nat) (payloadLen : Nat) : Option Bytes :=
  if 36 + payloadLen ≤ buffer.length then
    some ⟨fun i => buffer.getD (36 + i) 0, payloadLen⟩
  else none

/-- FrameAssembler state: reconstruction buffer, set of received chunk ids,
the header fields frozen at construction, the last-update timestamp and the
fixed per-chunk payload size (32768 in the source). -/
structure FrameAssembler where
  buffer : Bytes
  receivedChunks : Finset Nat
  totalChunks : Nat
  frameSize : Nat
  frameId : Nat
  width : Nat
  height : Nat
  lastUpdate : Int
  chunkPayloadSize : Nat

/-- The FrameAssembler constructor: fields copied from the first header seen
for this frameId, a zero-filled buffer of exactly frameSize bytes, an empty
received set, lastUpdate set to the current time, chunkPayloadSize 32768. -/
def mkFrameAssembler (header : StreamInfo) (now : Int) : FrameAssembler :=
  { frameId := header.frameId
    frameSize := header.frameSize
    totalChunks := header.chunksTotal
    width := header.width
    height := header.height
    buffer := Bytes.zeros header.frameSize
    receivedChunks := ∅
    lastUpdate := now
    chunkPayloadSize := 32768 }

/-- FrameAssembler.isComplete: the number of distinct received chunk ids
equals the declared total. -/
def FrameAssembler.isComplete (a : FrameAssembler) : Bool :=
  a.receivedChunks.card = a.totalChunks

/-- FrameAssembler.addChunk.  Guards in source order: chunk id out of range,
duplicate chunk id, computed offset at or past the end of the buffer; each
rejection returns false with the state untouched.  Otherwise the first
bytesToCopy = min(payload.length, buffer.length - offset) bytes of the payload
are copied at offset, the chunk id is recorded, the timestamp is refreshed
and the completion check is returned. -/
def FrameAssembler.addChunk (a : FrameAssembler) (chunkId : Nat) (payload : Bytes)
    (now : Int) : Bool × FrameAssembler :=
  if a.totalChunks ≤ chunkId then (false, a)
  else if chunkId ∈ a.receivedChunks then (false, a)
  else if a.buffer.size ≤ chunkId * a.chunkPayloadSize then (false, a)
  else
    let offset := chunkId * a.chunkPayloadSize
    let bytesToCopy := min payload.size (a.buffer.size - offset)
    let a' : FrameAssembler :=
      { a with
        buffer := a.buffer.writeAt offset payload bytesToCopy
        receivedChunks := insert chunkId a.receivedChunks
        lastUpdate := now }
    (a'.isComplete, a')

/-- FrameAssembler.getJpegData: buffer.slice(0, frameSize).  (The actualSize
local of the source is dead code and is not modelled.) -/
def FrameAssembler.getJpegData (a : FrameAssembler) : Bytes :=
  a.buffer.slice0 a.frameSize

/-- Lookup in the frames table, modelled as an association list in Map
insertion order. -/
def mapGet (m : List (Nat × FrameAssembler)) (k : Nat) : Option FrameAssembler :=
  match m with
  | [] => none
  | (k', v) :: rest => if k' = k then some v else mapGet rest k

/-- Map.set: replace the value in place when the key is present, append a new
entry otherwise, as a JS Map does. -/
def mapSet (m : List (Nat × FrameAssembler)) (k : Nat) (v : FrameAssembler) :
    List (Nat × FrameAssembler) :=
  match m with
  | [] => [(k, v)]
  | (k', v') :: rest => if k' = k then (k, v) :: rest else (k', v') :: mapSet rest k v

/-- Map.delete: remove the entry with the given key.  JS Map keys are unique,
so removing every matching entry agrees with the Map behaviour. -/
def mapDelete (m : List (Nat × FrameAssembler)) (k : Nat) : List (Nat × FrameAssembler) :=
  m.filter (fun e => e.1 ≠ k)

/-- Reassembler state: the frameId-to-assembler table and the capacity
threshold (8 by default in the source). -/
structure Reassembler where
  frames : List (Nat × FrameAssembler)
  maxFrames : Nat

/-- Reassembler.push: fetch or create the assembler for header.frameId, feed
it the chunk, and on completion remove it from the table and return it;
otherwise keep the updated assembler in the table and return nothing.  In the
source the Map holds the assembler object that addChunk mutates in place; the
pure image stores the post-addChunk assembler. -/
def Reassembler.push (r : Reassembler) (header : StreamInfo) (payload : Bytes)
    (now : Int) : Option FrameAssembler × Reassembler :=
  let frame :=
    match mapGet r.frames header.frameId with
    | some f => f
    | none => mkFrameAssembler header now
  let res := frame.addChunk header.chunkId payload now
  let frames1 := mapSet r.frames header.frameId res.2
  if res.1 then (some res.2, { r with frames := mapDelete frames1 header.frameId })
  else (none, { r with frames := frames1 })

/-- Reassembler.gc: a no-op while the table size is at most maxFrames;
otherwise collect the keys of every entry whose last update is more than
maxAgeMs old and delete them. -/
def Reassembler.gc (r : Reassembler) (now : Int) (maxAgeMs : Int) : Reassembler :=
  if r.frames.length ≤ r.maxFrames then r
  else
    let toDelete := (r.frames.filter (fun e => maxAgeMs < now - e.2.lastUpdate)).map (·.1)
    { r with frames := toDelete.foldl (fun m k => mapDelete m k) r.frames }

/-- Drive a sequence of datagrams of one frame through Reassembler.push: the
chunk ids of the list are pushed in order, each with the common header fields
of H and the payload assigned to that chunk id; returns the emission of every
push together with the final state. -/
def pushAll (H : StreamInfo) (p : Nat → Bytes) (now : Int) :
    Reassembler → List Nat → List (Option FrameAssembler) × Reassembler
  | r, [] => ([], r)
  | r, k :: ks =>
    let res := r.push { H with chunkId := k } (p k) now
    let rest := pushAll H p now res.2 ks
    (res.1 :: rest.1, rest.2)

/-- FPS counter state of processBuffer: event count and window start (the
lastTime field, 0 meaning not yet started). -/
structure FpsCounter where
  count : Nat
  lastTime : Int
deriving DecidableEq

/-- One completion event of the FPS counter in processBuffer: set
lastTime on first use, increment the count, and once at least 1000 ms have
elapsed since the window start report count * 1000 / elapsed and reset the
window.  The reported rate is the exact rational the JS float approximates. -/
def fpsRecord (s : FpsCounter) (now : Int) : Option ℚ × FpsCounter :=
  let lastTime := if s.lastTime = 0 then now else s.lastTime
  let count := s.count + 1
  let elapsed := now - lastTime
  if 1000 ≤ elapsed then
    (some ((count * 1000 : ℚ) / (elapsed : ℚ)), ⟨0, now⟩)
  else
    (none, ⟨count, lastTime⟩)

/-- The per-chunk copy length min(payload.length, frameSize - offset) used by
an assembler of frame size fs for chunk k. -/
def copyLen (p : Nat → Bytes) (fs k : Nat) : Nat :=
  min (p k).size (fs - k * 32768)

/-- Reference contents of the reconstruction buffer of a frame of size fs
after exactly the chunks of S have been accepted, each chunk k writing the
first copyLen bytes of its payload at offset k * 32768: position i holds a
payload byte exactly when its chunk i / 32768 has been received and i lies
inside the copied range of that chunk, and 0 otherwise. -/
def accumData (p : Nat → Bytes) (fs : Nat) (S : Finset Nat) (i : Nat) : Nat :=
  if i / 32768 ∈ S ∧ i % 32768 < copyLen p fs (i / 32768) then
    (p (i / 32768)).data (i % 32768)
  else 0

/-- Reference contents of the fully assembled frame: every chunk of
range chunksTotal received. -/
def assembledBytes (p : Nat → Bytes) (total fs : Nat) : Bytes :=
  ⟨accumData p fs (Finset.range total), fs⟩

/-- Invariant of the assembler of a frame with base header H after exactly
the chunks of S have been delivered: the header fields are frozen, the buffer
has length frameSize, the received set is S (all ids in range), and the buffer
holds exactly the accumulated chunk data. -/
def AsmInv (H : StreamInfo) (p : Nat → Bytes) (S : Finset Nat) (a : FrameAssembler) : Prop :=
  a.totalChunks = H.chunksTotal ∧
  a.frameSize = H.frameSize ∧
  a.chunkPayloadSize = 32768 ∧
  a.buffer.size = H.frameSize ∧
  a.receivedChunks = S ∧
  S ⊆ Finset.range H.chunksTotal ∧
  ∀ i, a.buffer.data i = accumData p H.frameSize S i

/-- Invariant of the reassembler table for frame H.frameId: either nothing
has been delivered yet and the table has no entry, or the entry satisfies the
assembler invariant. -/
def TableInv (H : StreamInfo) (p : Nat → Bytes) (S : Finset Nat) (r : Reassembler) : Prop :=
  (S = ∅ ∧ mapGet r.frames H.frameId = none) ∨
  (∃ a, mapGet r.frames H.frameId = some a ∧ AsmInv H p S a)

/-- Concrete header, payloads and empty table used to witness the amended C1
theorem: one chunk, frame size 4, payload of 4 bytes. -/
def c1Header : StreamInfo := ⟨7, 0, 1, 4, 2, 2, 4⟩

/-- Payload assignment for the C1 witness. -/
def c1Payloads : Nat → Bytes := fun _ => ⟨fun _ => 9, 4⟩

/-- Empty reassembler table for the C1 witness. -/
def c1Table : Reassembler := ⟨[], 8⟩

/-- Concrete two-entry table above its capacity threshold, one stale entry
and one fresh one, used to witness the gc theorem. -/
def c7Table : Reassembler :=
  ⟨[(1, mkFrameAssembler ⟨1, 0, 1, 4, 0, 0, 0⟩ 0),
    (2, mkFrameAssembler ⟨2, 0, 1, 4, 0, 0, 0⟩ 4500)], 1⟩

/-- Concrete valid extended (36-byte plus payload) datagram for the C4
witness. -/
def c4Ext : List Nat :=
  [77, 89, 73, 82, 3, 0, 0, 0, 0, 2, 0, 2, 0, 0, 0, 0, 0, 0, 0, 0,
   0, 0, 0, 7, 0, 0, 0, 4, 0, 0, 0, 1, 0, 4, 0, 0, 9, 9, 9, 9]

/-- Concrete valid legacy 32-byte datagram for the C4 witness. -/
def c4Leg : List Nat :=
  [77, 89, 73, 82, 3, 0, 0, 0, 1, 64, 0, 240, 0, 0, 0, 0,
   0, 0, 0, 0, 0, 0, 0, 3, 0, 0, 0, 5, 0, 1, 0, 2]

/-- Concrete 36-byte datagram with a valid header whose payloadLen field is
1: the datagram ends right after the header, so the payload view is out of
range. -/
def c9Datagram : List Nat :=
  [77, 89, 73, 82, 3, 0, 0, 0, 0, 0, 0, 0, 0, 0, 0, 0, 0, 0, 0, 0,
   0, 0, 0, 9, 0, 0, 0, 100, 0, 0, 0, 1, 0, 1, 0, 0]

lemma accumData_empty (p : Nat → Bytes) (fs i : Nat) :
    accumData p fs ∅ i = 0 := by
  simp [accumData]

lemma asmInv_mk (H : StreamInfo) (p : Nat → Bytes) (j : Nat) (t : Int) :
    AsmInv H p ∅ (mkFrameAssembler { H with chunkId := j } t) := by
  refine ⟨rfl, rfl, rfl, rfl, rfl, Finset.empty_subset _, fun i => ?_⟩
  simp [mkFrameAssembler, Bytes.zeros, accumData_empty]

lemma mapGet_mapSet_self (m : List (Nat × FrameAssembler)) (k : Nat) (v : FrameAssembler) :
    mapGet (mapSet m k v) k = some v := by
  induction m with
  | nil => simp [mapSet, mapGet]
  | cons e rest ih =>
    by_cases h : e.1 = k
    · simp [mapSet, mapGet, h]
    · simp only [mapSet, mapGet, h, if_neg]
      simpa [mapGet, h] using ih

lemma mapGet_mapDelete_self (m : List (Nat × FrameAssembler)) (k : Nat) :
    mapGet (mapDelete m k) k = none := by
  induction m with
  | nil => simp [mapDelete, mapGet]
  | cons e rest ih =>
    by_cases h : e.1 = k
    · simpa [mapDelete, List.filter, h] using ih
    · simpa [mapDelete, List.filter, h, mapGet] using ih

lemma addChunk_accept (H : StreamInfo) (p : Nat → Bytes) (a : FrameAssembler)
    (S : Finset Nat) (j : Nat) (t : Int)
    (hfs : (H.chunksTotal - 1) * 32768 < H.frameSize)
    (hp : ∀ k, k < H.chunksTotal → (p k).size ≤ 32768)
    (ha : AsmInv H p S a) (hj : j < H.chunksTotal) (hjS : j ∉ S) :
    (a.addChunk j (p j) t).1 = decide (S.card + 1 = H.chunksTotal) ∧
    AsmInv H p (insert j S) (a.addChunk j (p j) t).2 := by
  obtain ⟨h1, h2, h3, h4, h5, h6, h7⟩ := ha
  have hg1 : ¬ (a.totalChunks ≤ j) := by omega
  have hg2 : ¬ (j ∈ a.receivedChunks) := by rw [h5]; exact hjS
  have hoff : j * 32768 < H.frameSize := by
    have : j * 32768 ≤ (H.chunksTotal - 1) * 32768 := by
      have : j ≤ H.chunksTotal - 1 := by omega
      exact Nat.mul_le_mul_right _ this
    omega
  have hg3 : ¬ (a.buffer.size ≤ j * a.chunkPayloadSize) := by
    rw [h3, h4]; omega
  rw [FrameAssembler.addChunk, if_neg hg1, if_neg hg2, if_neg hg3]
  have hcard : (insert j S).card = S.card + 1 := Finset.card_insert_of_not_mem hjS
  have hbtc : min (p j).size (a.buffer.size - j * a.chunkPayloadSize) =
      copyLen p H.frameSize j := by
    rw [h3, h4, copyLen]
  constructor
  · simp only [FrameAssembler.isComplete, h1, h5, hcard]
  · refine ⟨h1, h2, h3, by simpa [Bytes.writeAt] using h4, by rw [h5], ?_, fun i => ?_⟩
    · rw [Finset.insert_subset_iff]
      exact ⟨Finset.mem_range.mpr hj, h6⟩
    · show (a.buffer.writeAt (j * a.chunkPayloadSize) (p j)
        (min (p j).size (a.buffer.size - j * a.chunkPayloadSize))).data i =
        accumData p H.frameSize (insert j S) i
      rw [Bytes.writeAt, hbtc, h3]
      dsimp only
      have hclen : copyLen p H.frameSize j ≤ 32768 :=
        le_trans (Nat.min_le_left _ _) (hp j hj)
      by_cases hcase : j * 32768 ≤ i ∧ i < j * 32768 + copyLen p H.frameSize j
      · have hdiv : i / 32768 = j := by
          apply Nat.div_eq_of_lt_le hcase.1
          calc i < j * 32768 + copyLen p H.frameSize j := hcase.2
            _ ≤ j * 32768 + 32768 := by omega
            _ = Nat.succ j * 32768 := by omega
        have hdm := Nat.div_add_mod i 32768
        rw [hdiv] at hdm
        have hmod : i % 32768 = i - j * 32768 := by omega
        rw [if_pos hcase, accumData, if_pos, hdiv, hmod]
        rw [hdiv, hmod]
        refine ⟨Finset.mem_insert_self _ _, ?_⟩
        omega
      · rw [if_neg hcase, h7]
        by_cases hdiv : i / 32768 = j
        · have hdm := Nat.div_add_mod i 32768
          rw [hdiv] at hdm
          have hlo : j * 32768 ≤ i := by omega
          have hhi : copyLen p H.frameSize j ≤ i % 32768 := by
            by_contra hc
            exact hcase ⟨hlo, by omega⟩
          rw [accumData, accumData, hdiv, if_neg (by omega), if_neg (by omega)]
        · simp [accumData, Finset.mem_insert, hdiv]

lemma push_step (H : StreamInfo) (p : Nat → Bytes) (r : Reassembler) (S : Finset Nat)
    (j : Nat) (t : Int)
    (hfs : (H.chunksTotal - 1) * 32768 < H.frameSize)
    (hp : ∀ k, k < H.chunksTotal → (p k).size ≤ 32768)
    (hr : TableInv H p S r) (hj : j < H.chunksTotal) (hjS : j ∉ S) :
    if S.card + 1 = H.chunksTotal then
      ∃ f, (r.push { H with chunkId := j } (p j) t).1 = some f ∧
        mapGet (r.push { H with chunkId := j } (p j) t).2.frames H.frameId = none ∧
        AsmInv H p (insert j S) f
    else
      (r.push { H with chunkId := j } (p j) t).1 = none ∧
      TableInv H p (insert j S) (r.push { H with chunkId := j } (p j) t).2 := by
  have hframe : ∃ a, (match mapGet r.frames H.frameId with
      | some f => f
      | none => mkFrameAssembler { H with chunkId := j } t) = a ∧ AsmInv H p S a := by
    rcases hr with ⟨hS, hnone⟩ | ⟨a, hsome, hinv⟩
    · exact ⟨_, by rw [hnone], hS ▸ asmInv_mk H p j t⟩
    · exact ⟨a, by rw [hsome], hinv⟩
  obtain ⟨a, hmatch, hinv⟩ := hframe
  have hstep := addChunk_accept H p a S j t hfs hp hinv hj hjS
  rw [Reassembler.push]
  dsimp only
  rw [hmatch]
  by_cases hc : S.card + 1 = H.chunksTotal
  · rw [if_pos hc]
    have hfst : (a.addChunk j (p j) t).1 = true := by
      rw [hstep.1, decide_eq_true_eq]; exact hc
    rw [hfst, if_pos rfl]
    exact ⟨_, rfl, mapGet_mapDelete_self _ _, hstep.2⟩
  · rw [if_neg hc]
    have hfst : (a.addChunk j (p j) t).1 = false := by
      rw [hstep.1, decide_eq_false_iff_not]; exact hc
    rw [hfst]
    refine ⟨by simp, Or.inr ⟨(a.addChunk j (p j) t).2, ?_, hstep.2⟩⟩
    simpa using mapGet_mapSet_self r.frames H.frameId (a.addChunk j (p j) t).2

lemma pushAll_complete (H : StreamInfo) (p : Nat → Bytes) (t : Int)
    (hfs : (H.chunksTotal - 1) * 32768 < H.frameSize)
    (hp : ∀ k, k < H.chunksTotal → (p k).size ≤ 32768) :
    ∀ L S r, TableInv H p S r → (∀ x ∈ L, x < H.chunksTotal) → L.Nodup →
      (∀ x ∈ L, x ∉ S) → S.card + L.length = H.chunksTotal → L ≠ [] →
      ∃ f, (pushAll H p t r L).1 = List.replicate (L.length - 1) none ++ [some f] ∧
        mapGet (pushAll H p t r L).2.frames H.frameId = none ∧
        AsmInv H p (Finset.range H.chunksTotal) f := by
  intro L
  induction L with
  | nil => intro S r _ _ _ _ _ hne; exact absurd rfl hne
  | cons j js ih =>
    intro S r hr hmem hnd hnotS hcard _
    have hj : j < H.chunksTotal := hmem j (List.mem_cons_self j js)
    have hjS : j ∉ S := hnotS j (List.mem_cons_self j js)
    have hstep := push_step H p r S j t hfs hp hr hj hjS
    by_cases hjs : js = []
    · subst hjs
      have hc : S.card + 1 = H.chunksTotal := by simpa using hcard
      rw [if_pos hc] at hstep
      obtain ⟨f, hf1, hf2, hf3⟩ := hstep
      have hrange : insert j S = Finset.range H.chunksTotal := by
        apply Finset.eq_of_subset_of_card_le hf3.2.2.2.2.2.1
        rw [Finset.card_range, Finset.card_insert_of_not_mem hjS, hc]
      refine ⟨f, ?_, ?_, hrange ▸ hf3⟩
      · show ((r.push { H with chunkId := j } (p j) t).1 ::
          (pushAll H p t (r.push { H with chunkId := j } (p j) t).2 []).1) = _
        rw [hf1]; rfl
      · show mapGet (pushAll H p t (r.push { H with chunkId := j } (p j) t).2 []).2.frames
          H.frameId = none
        exact hf2
    · have hjsne : js ≠ [] := hjs
      have hlen : 1 ≤ js.length := by
        cases js with
        | nil => exact absurd rfl hjsne
        | cons _ _ => simp
      have hc : S.card + 1 ≠ H.chunksTotal := by
        simp only [List.length_cons] at hcard; omega
      rw [if_neg hc] at hstep
      obtain ⟨hf1, hr'⟩ := hstep
      have ihres := ih (insert j S) (r.push { H with chunkId := j } (p j) t).2 hr'
        (fun x hx => hmem x (List.mem_cons_of_mem _ hx))
        (List.Nodup.of_cons hnd)
        (fun x hx => by
          rw [Finset.mem_insert]
          push_neg
          refine ⟨?_, hnotS x (List.mem_cons_of_mem _ hx)⟩
          intro hxj
          exact (List.nodup_cons.mp hnd).1 (hxj ▸ hx))
        (by rw [Finset.card_insert_of_not_mem hjS]
            simp only [List.length_cons] at hcard; omega)
        hjsne
      obtain ⟨f, hih1, hih2, hih3⟩ := ihres
      refine ⟨f, ?_, hih2, hih3⟩
      show ((r.push { H with chunkId := j } (p j) t).1 ::
        (pushAll H p t (r.push { H with chunkId := j } (p j) t).2 js).1) = _
      rw [hf1, hih1]
      have : js.length - 1 + 1 = js.length := by omega
      rw [List.length_cons]
      calc (none :: (List.replicate (js.length - 1) (none : Option FrameAssembler) ++
            [some f]))
          = List.replicate (js.length - 1 + 1) none ++ [some f] := by
            rw [List.replicate_succ]; rfl
        _ = List.replicate (js.length + 1 - 1) none ++ [some f] := by rw [this]; congr 1

lemma push_none_keeps_entry (r : Reassembler) (h : StreamInfo) (q : Bytes) (t : Int)
    (hnone : (r.push h q t).1 = none) :
    mapGet (r.push h q t).2.frames h.frameId ≠ none := by
  rw [Reassembler.push] at hnone ⊢
  by_cases hc : ((match mapGet r.frames h.frameId with
      | some f => f
      | none => mkFrameAssembler h t).addChunk h.chunkId q t).1 = true
  · rw [if_pos hc] at hnone
    exact absurd hnone (by simp)
  · rw [if_neg hc] at hnone ⊢
    dsimp only
    rw [mapGet_mapSet_self]
    simp

/-- C1, amended.  For a frame whose header is internally consistent
((chunksTotal - 1) * 32768 < frameSize, so every declared chunk offset lies
inside the buffer) and whose chunk payloads are each at most the fixed
chunk payload size of 32768 bytes, delivering the chunkIds 0..N-1 in any
order emits the frame exactly once: every push before the last returns null
(and any push returning null leaves the assembler of the frame in the table), the
completing push returns the assembler and removes it from the table, and the
emitted bytes are observationally equal to the canonical assembly of the
payloads, hence identical for every arrival order. -/
theorem C1_completion_emitted_once_order_independent
    (H : StreamInfo) (p : Nat → Bytes) (L : List Nat) (r : Reassembler) (t : Int)
    (hN : 0 < H.chunksTotal)
    (hfs : (H.chunksTotal - 1) * 32768 < H.frameSize)
    (hp : ∀ k, k < H.chunksTotal → (p k).size ≤ 32768)
    (hperm : L.Perm (List.range H.chunksTotal))
    (hr : mapGet r.frames H.frameId = none) :
    (∃ f, (pushAll H p t r L).1 = List.replicate (H.chunksTotal - 1) none ++ [some f] ∧
      mapGet (pushAll H p t r L).2.frames H.frameId = none ∧
      f.frameSize = H.frameSize ∧
      Bytes.eqv f.getJpegData (assembledBytes p H.chunksTotal H.frameSize)) ∧
    (∀ (r' : Reassembler) (h' : StreamInfo) (q : Bytes) (t' : Int),
      (r'.push h' q t').1 = none →
      mapGet (r'.push h' q t').2.frames h'.frameId ≠ none) := by
  refine ⟨?_, push_none_keeps_entry⟩
  have hlen : L.length = H.chunksTotal := by
    rw [hperm.length_eq, List.length_range]
  have hnd : L.Nodup := hperm.nodup_iff.mpr (List.nodup_range _)
  have hmem : ∀ x ∈ L, x < H.chunksTotal := fun x hx =>
    List.mem_range.mp (hperm.mem_iff.mp hx)
  have hne : L ≠ [] := by
    intro hLnil
    rw [hLnil] at hlen
    simp at hlen
    omega
  obtain ⟨f, h1, h2, hinv⟩ := pushAll_complete H p t hfs hp L ∅ r
    (Or.inl ⟨rfl, hr⟩) hmem hnd (by simp) (by simpa using hlen) hne
  obtain ⟨i1, i2, i3, i4, i5, i6, i7⟩ := hinv
  refine ⟨f, by rwa [hlen] at h1, h2, i2, ?_, ?_⟩
  · show (f.buffer.slice0 f.frameSize).size = (assembledBytes p H.chunksTotal H.frameSize).size
    rw [Bytes.slice0, assembledBytes, i2, i4]
    simp
  · intro i hi
    rw [FrameAssembler.getJpegData, Bytes.slice0] at hi ⊢
    dsimp only at hi ⊢
    rw [if_pos hi, i7 i]
    rfl

/-- C1 counterexample, refuting the claim as stated.  First half: a frame
whose header declares chunksTotal = 3 but frameSize = 100 never completes
even though all three distinct chunkIds 0, 1, 2 are delivered (chunks 1 and 2
fail the offset bound and are dropped), so the frame is not emitted after all
N distinct chunkIds arrive and its assembler stays in the table.  Second
half: with a consistent header (chunksTotal = 2, frameSize = 32769) but an
oversized chunk-0 payload of 32769 bytes, both arrival orders complete, yet
byte 32768 of the emitted buffer is 7 in order 0,1 and 5 in order 1,0 — the
emitted contents depend on the arrival order. -/
theorem C1_counterexample :
    (((pushAll ⟨7, 0, 3, 100, 0, 0, 0⟩ (fun _ => ⟨fun _ => 1, 32768⟩) 0 ⟨[], 8⟩
        [0, 1, 2]).1.map Option.isSome) = [false, false, false] ∧
      (mapGet (pushAll ⟨7, 0, 3, 100, 0, 0, 0⟩ (fun _ => ⟨fun _ => 1, 32768⟩) 0 ⟨[], 8⟩
        [0, 1, 2]).2.frames 7).isSome = true) ∧
    (((pushAll ⟨8, 0, 2, 32769, 0, 0, 0⟩
        (fun k => if k = 0 then ⟨fun _ => 5, 32769⟩ else ⟨fun _ => 7, 1⟩) 0 ⟨[], 8⟩
        [0, 1]).1.map (Option.map fun f => f.getJpegData.data 32768)) = [none, some 7] ∧
      ((pushAll ⟨8, 0, 2, 32769, 0, 0, 0⟩
        (fun k => if k = 0 then ⟨fun _ => 5, 32769⟩ else ⟨fun _ => 7, 1⟩) 0 ⟨[], 8⟩
        [1, 0]).1.map (Option.map fun f => f.getJpegData.data 32768)) = [none, some 5]) := by
  decide

/-- Witness for the amended C1 theorem at a concrete one-chunk frame. -/
theorem C1_witness :
    (0 < c1Header.chunksTotal ∧
      (c1Header.chunksTotal - 1) * 32768 < c1Header.frameSize ∧
      (∀ k, k < c1Header.chunksTotal → (c1Payloads k).size ≤ 32768) ∧
      List.Perm [0] (List.range c1Header.chunksTotal) ∧
      mapGet c1Table.frames c1Header.frameId = none) ∧
    ((∃ f, (pushAll c1Header c1Payloads 0 c1Table [0]).1 =
        List.replicate (c1Header.chunksTotal - 1) none ++ [some f] ∧
      mapGet (pushAll c1Header c1Payloads 0 c1Table [0]).2.frames c1Header.frameId = none ∧
      f.frameSize = c1Header.frameSize ∧
      Bytes.eqv f.getJpegData (assembledBytes c1Payloads c1Header.chunksTotal
        c1Header.frameSize)) ∧
    (∀ (r' : Reassembler) (h' : StreamInfo) (q : Bytes) (t' : Int),
      (r'.push h' q t').1 = none →
      mapGet (r'.push h' q t').2.frames h'.frameId ≠ none)) :=
  ⟨⟨by decide, by decide, by decide, by decide, rfl⟩,
    C1_completion_emitted_once_order_independent c1Header c1Payloads [0] c1Table 0
      (by decide) (by decide) (by decide) (by decide) rfl⟩

lemma addChunk_reject (a : FrameAssembler) (cid : Nat) (q : Bytes) (t : Int)
    (hrej : a.totalChunks ≤ cid ∨ cid ∈ a.receivedChunks ∨
      a.buffer.size ≤ cid * a.chunkPayloadSize) :
    a.addChunk cid q t = (false, a) := by
  rw [FrameAssembler.addChunk]
  by_cases h1 : a.totalChunks ≤ cid
  · rw [if_pos h1]
  · rw [if_neg h1]
    by_cases h2 : cid ∈ a.receivedChunks
    · rw [if_pos h2]
    · rw [if_neg h2]
      rcases hrej with h | h | h
      · exact absurd h h1
      · exact absurd h h2
      · rw [if_pos h]

lemma addChunk_accept_state (a : FrameAssembler) (cid : Nat) (q : Bytes) (t : Int)
    (n1 : ¬ a.totalChunks ≤ cid) (n2 : cid ∉ a.receivedChunks)
    (n3 : ¬ a.buffer.size ≤ cid * a.chunkPayloadSize) :
    (a.addChunk cid q t).2 =
      { a with
        buffer := a.buffer.writeAt (cid * a.chunkPayloadSize) q
          (min q.size (a.buffer.size - cid * a.chunkPayloadSize))
        receivedChunks := insert cid a.receivedChunks
        lastUpdate := t } := by
  rw [FrameAssembler.addChunk, if_neg n1, if_neg n2, if_neg n3]

/-- C2: the reconstruction buffer has length exactly frameSize at
construction; no addChunk call ever changes the buffer length; an accepted
copy stays in bounds, offset + bytesToCopy being at most the buffer length
with bytesToCopy = min(payload length, buffer length - offset), and the
accepted chunk performs exactly that bounded copy; and getJpegData returns a
buffer of length exactly frameSize. -/
theorem C2_buffer_exact_size_and_bounds (h : StreamInfo) (a : FrameAssembler)
    (cid : Nat) (q : Bytes) (t now : Int)
    (hacc : cid < a.totalChunks ∧ cid ∉ a.receivedChunks ∧
      cid * a.chunkPayloadSize < a.buffer.size)
    (hsz : a.buffer.size = a.frameSize) :
    (mkFrameAssembler h now).buffer.size = h.frameSize ∧
    (∀ (b : FrameAssembler) (cid' : Nat) (q' : Bytes) (t' : Int),
      ((b.addChunk cid' q' t').2).buffer.size = b.buffer.size) ∧
    cid * a.chunkPayloadSize +
      min q.size (a.buffer.size - cid * a.chunkPayloadSize) ≤ a.buffer.size ∧
    (a.addChunk cid q t).2.buffer =
      a.buffer.writeAt (cid * a.chunkPayloadSize) q
        (min q.size (a.buffer.size - cid * a.chunkPayloadSize)) ∧
    a.getJpegData.size = a.frameSize := by
  refine ⟨rfl, ?_, ?_, ?_, ?_⟩
  · intro b cid' q' t'
    rw [FrameAssembler.addChunk]
    split_ifs <;> rfl
  · omega
  · rw [addChunk_accept_state a cid q t (by omega) hacc.2.1 (by omega)]
  · rw [FrameAssembler.getJpegData, Bytes.slice0, hsz]
    simp

/-- Witness for C2 at a freshly constructed one-chunk assembler. -/
theorem C2_witness :
    ((0 < (mkFrameAssembler ⟨7, 0, 1, 4, 2, 2, 4⟩ 0).totalChunks ∧
      0 ∉ (mkFrameAssembler ⟨7, 0, 1, 4, 2, 2, 4⟩ 0).receivedChunks ∧
      0 * (mkFrameAssembler ⟨7, 0, 1, 4, 2, 2, 4⟩ 0).chunkPayloadSize <
        (mkFrameAssembler ⟨7, 0, 1, 4, 2, 2, 4⟩ 0).buffer.size) ∧
      (mkFrameAssembler ⟨7, 0, 1, 4, 2, 2, 4⟩ 0).buffer.size =
        (mkFrameAssembler ⟨7, 0, 1, 4, 2, 2, 4⟩ 0).frameSize) ∧
    ((mkFrameAssembler ⟨9, 0, 2, 8, 1, 1, 4⟩ 3).buffer.size = 8 ∧
      (∀ (b : FrameAssembler) (cid' : Nat) (q' : Bytes) (t' : Int),
        ((b.addChunk cid' q' t').2).buffer.size = b.buffer.size) ∧
      0 * (mkFrameAssembler ⟨7, 0, 1, 4, 2, 2, 4⟩ 0).chunkPayloadSize +
        min (Bytes.zeros 4).size
          ((mkFrameAssembler ⟨7, 0, 1, 4, 2, 2, 4⟩ 0).buffer.size -
            0 * (mkFrameAssembler ⟨7, 0, 1, 4, 2, 2, 4⟩ 0).chunkPayloadSize) ≤
        (mkFrameAssembler ⟨7, 0, 1, 4, 2, 2, 4⟩ 0).buffer.size ∧
      ((mkFrameAssembler ⟨7, 0, 1, 4, 2, 2, 4⟩ 0).addChunk 0 (Bytes.zeros 4) 0).2.buffer =
        (mkFrameAssembler ⟨7, 0, 1, 4, 2, 2, 4⟩ 0).buffer.writeAt
          (0 * (mkFrameAssembler ⟨7, 0, 1, 4, 2, 2, 4⟩ 0).chunkPayloadSize)
          (Bytes.zeros 4)
          (min (Bytes.zeros 4).size
            ((mkFrameAssembler ⟨7, 0, 1, 4, 2, 2, 4⟩ 0).buffer.size -
              0 * (mkFrameAssembler ⟨7, 0, 1, 4, 2, 2, 4⟩ 0).chunkPayloadSize)) ∧
      (mkFrameAssembler ⟨7, 0, 1, 4, 2, 2, 4⟩ 0).getJpegData.size =
        (mkFrameAssembler ⟨7, 0, 1, 4, 2, 2, 4⟩ 0).frameSize) :=
  ⟨⟨⟨by decide, by decide, by decide⟩, by decide⟩,
    C2_buffer_exact_size_and_bounds ⟨9, 0, 2, 8, 1, 1, 4⟩
      (mkFrameAssembler ⟨7, 0, 1, 4, 2, 2, 4⟩ 0) 0 (Bytes.zeros 4) 0 3
      ⟨by decide, by decide, by decide⟩ (by decide)⟩

/-- C5: re-delivering a chunkId that has already been delivered once returns
false and leaves the assembler state (buffer, received set, last-update
timestamp) exactly as it was after the first delivery, whatever the duplicate
payload and timestamp are; this holds whether the first delivery was accepted
or itself rejected. -/
theorem C5_duplicate_delivery_idempotent (a : FrameAssembler) (cid : Nat)
    (q₁ q₂ : Bytes) (t₁ t₂ : Int) :
    ((a.addChunk cid q₁ t₁).2).addChunk cid q₂ t₂ = (false, (a.addChunk cid q₁ t₁).2) := by
  by_cases h1 : a.totalChunks ≤ cid
  · rw [addChunk_reject a cid q₁ t₁ (Or.inl h1)]
    exact addChunk_reject a cid q₂ t₂ (Or.inl h1)
  · by_cases h2 : cid ∈ a.receivedChunks
    · rw [addChunk_reject a cid q₁ t₁ (Or.inr (Or.inl h2))]
      exact addChunk_reject a cid q₂ t₂ (Or.inr (Or.inl h2))
    · by_cases h3 : a.buffer.size ≤ cid * a.chunkPayloadSize
      · rw [addChunk_reject a cid q₁ t₁ (Or.inr (Or.inr h3))]
        exact addChunk_reject a cid q₂ t₂ (Or.inr (Or.inr h3))
      · rw [addChunk_accept_state a cid q₁ t₁ h1 h2 h3]
        exact addChunk_reject _ cid q₂ t₂
          (Or.inr (Or.inl (Finset.mem_insert_self cid _)))

/-- C6: a chunk whose id is at least chunksTotal, or whose computed offset
chunkId * chunkPayloadSize reaches the end of the buffer, is rejected with
the assembler completely unchanged (so it never contributes to completion);
and the rejection is non-fatal: in the spec scenario a chunk with chunkId 5
on a frame declaring chunksTotal = 3 is rejected, after which chunks 0, 1, 2
still complete the frame, which is then emitted and removed from the table. -/
theorem C6_invalid_chunk_rejected_nonfatal (a : FrameAssembler) (cid : Nat)
    (q : Bytes) (t : Int)
    (hrej : a.totalChunks ≤ cid ∨ a.buffer.size ≤ cid * a.chunkPayloadSize) :
    a.addChunk cid q t = (false, a) ∧
    ((pushAll ⟨7, 0, 3, 70000, 640, 480, 0⟩
        (fun k => ⟨fun _ => 1, if k = 2 then 4464 else 32768⟩) 0 ⟨[], 8⟩
        [5, 0, 1, 2]).1.map Option.isSome = [false, false, false, true] ∧
      (mapGet (pushAll ⟨7, 0, 3, 70000, 640, 480, 0⟩
        (fun k => ⟨fun _ => 1, if k = 2 then 4464 else 32768⟩) 0 ⟨[], 8⟩
        [5, 0, 1, 2]).2.frames 7).isNone = true) := by
  refine ⟨?_, by decide, by decide⟩
  rcases hrej with h | h
  · exact addChunk_reject a cid q t (Or.inl h)
  · exact addChunk_reject a cid q t (Or.inr (Or.inr h))

/-- Witness for C6: chunkId 5 on a three-chunk assembler. -/
theorem C6_witness :
    ((mkFrameAssembler ⟨7, 0, 3, 70000, 640, 480, 0⟩ 0).totalChunks ≤ 5 ∨
      (mkFrameAssembler ⟨7, 0, 3, 70000, 640, 480, 0⟩ 0).buffer.size ≤
        5 * (mkFrameAssembler ⟨7, 0, 3, 70000, 640, 480, 0⟩ 0).chunkPayloadSize) ∧
    (mkFrameAssembler ⟨7, 0, 3, 70000, 640, 480, 0⟩ 0).addChunk 5 (Bytes.zeros 32768) 1 =
      (false, mkFrameAssembler ⟨7, 0, 3, 70000, 640, 480, 0⟩ 0) :=
  ⟨Or.inl (by decide),
    (C6_invalid_chunk_rejected_nonfatal (mkFrameAssembler ⟨7, 0, 3, 70000, 640, 480, 0⟩ 0)
      5 (Bytes.zeros 32768) 1 (Or.inl (by decide))).1⟩

lemma foldl_mapDelete_eq_filter (ks : List Nat) :
    ∀ m : List (Nat × FrameAssembler),
      ks.foldl (fun m k => mapDelete m k) m = m.filter (fun e => decide (e.1 ∉ ks)) := by
  induction ks with
  | nil =>
    intro m
    simp [List.foldl]
  | cons k ks ih =>
    intro m
    rw [List.foldl_cons, ih (mapDelete m k), mapDelete, List.filter_filter]
    apply List.filter_congr
    intro e _
    by_cases h1 : e.1 = k <;> by_cases h2 : e.1 ∈ ks <;> simp [h1, h2]

lemma keys_nodup_entry_unique (m : List (Nat × FrameAssembler))
    (hnd : (m.map Prod.fst).Nodup) :
    ∀ e ∈ m, ∀ e' ∈ m, e.1 = e'.1 → e = e' := by
  induction m with
  | nil =>
    intro e he
    exact absurd he (List.not_mem_nil e)
  | cons a rest ih =>
    rw [List.map_cons, List.nodup_cons] at hnd
    intro e he e' he' hk
    rcases List.mem_cons.mp he with rfl | he1
    · rcases List.mem_cons.mp he' with rfl | he1'
      · rfl
      · exfalso
        apply hnd.1
        rw [hk]
        exact List.mem_map_of_mem Prod.fst he1'
    · rcases List.mem_cons.mp he' with rfl | he1'
      · exfalso
        apply hnd.1
        rw [← hk]
        exact List.mem_map_of_mem Prod.fst he1
      · exact ih hnd.2 e he1 e' he1' hk

/-- C7: gc is a no-op (the whole state is unchanged) while the table holds at
most maxFrames entries; once the size exceeds maxFrames it keeps exactly the
entries whose last update is at most maxAgeMs old, removing all the strictly
older ones; and in every state with the unique-key property of a JS Map an entry no
older than maxAgeMs survives gc. -/
theorem C7_gc_capacity_gated_staleness_eviction (r : Reassembler) (now maxAgeMs : Int)
    (hnd : (r.frames.map Prod.fst).Nodup) :
    (r.frames.length ≤ r.maxFrames → r.gc now maxAgeMs = r) ∧
    (r.maxFrames < r.frames.length →
      (r.gc now maxAgeMs).frames =
        r.frames.filter (fun e => decide (now - e.2.lastUpdate ≤ maxAgeMs))) ∧
    (∀ e ∈ r.frames, now - e.2.lastUpdate ≤ maxAgeMs →
      e ∈ (r.gc now maxAgeMs).frames) := by
  have hmain : r.maxFrames < r.frames.length →
      (r.gc now maxAgeMs).frames =
        r.frames.filter (fun e => decide (now - e.2.lastUpdate ≤ maxAgeMs)) := by
    intro hgt
    rw [Reassembler.gc, if_neg (by omega)]
    dsimp only
    rw [foldl_mapDelete_eq_filter]
    apply List.filter_congr
    intro e he
    have hmem : e.1 ∈ (r.frames.filter
          (fun e => decide (maxAgeMs < now - e.2.lastUpdate))).map Prod.fst ↔
        maxAgeMs < now - e.2.lastUpdate := by
      constructor
      · intro hmem
        obtain ⟨e', he', hke⟩ := List.mem_map.mp hmem
        have he'2 := List.mem_filter.mp he'
        have heq : e' = e := keys_nodup_entry_unique r.frames hnd e' he'2.1 e he hke
        rw [← heq]
        simpa using he'2.2
      · intro hst
        exact List.mem_map_of_mem Prod.fst (List.mem_filter.mpr ⟨he, by simpa using hst⟩)
    exact decide_eq_decide.mpr ((not_congr hmem).trans not_lt)
  refine ⟨?_, hmain, ?_⟩
  · intro hle
    rw [Reassembler.gc, if_pos hle]
  · intro e he hfresh
    by_cases hgt : r.maxFrames < r.frames.length
    · rw [hmain hgt]
      exact List.mem_filter.mpr ⟨he, by simpa using hfresh⟩
    · rw [Reassembler.gc, if_pos (by omega)]
      exact he

/-- Witness for C7 at the concrete table, with now = 5000 and maxAgeMs = 1000. -/
theorem C7_witness :
    (c7Table.frames.map Prod.fst).Nodup ∧
    ((c7Table.frames.length ≤ c7Table.maxFrames → c7Table.gc 5000 1000 = c7Table) ∧
      (c7Table.maxFrames < c7Table.frames.length →
        (c7Table.gc 5000 1000).frames =
          c7Table.frames.filter (fun e => decide (5000 - e.2.lastUpdate ≤ 1000))) ∧
      (∀ e ∈ c7Table.frames, 5000 - e.2.lastUpdate ≤ 1000 →
        e ∈ (c7Table.gc 5000 1000).frames)) :=
  ⟨by decide, C7_gc_capacity_gated_staleness_eviction c7Table 5000 1000 (by decide)⟩

/-- C8: one step of the FPS counter.  With windowStart denoting the counter's
window start after the first-call setup (lastTime, set to nowMs when
it was still 0), the call returns a rate exactly when nowMs - windowStart is
at least 1000 ms, and then the rate is (count + 1) * 1000 / (nowMs -
windowStart) — the current event included — with the count reset to 0 and the
window start reset to nowMs; otherwise it returns nothing and only the count
is incremented. -/
theorem C8_fps_counter_window (s : FpsCounter) (now : Int) :
    ((fpsRecord s now).1.isSome = true ↔
      1000 ≤ now - (if s.lastTime = 0 then now else s.lastTime)) ∧
    (1000 ≤ now - (if s.lastTime = 0 then now else s.lastTime) →
      fpsRecord s now =
        (some ((((s.count + 1 : Nat) : ℚ) * 1000) /
          ((now - (if s.lastTime = 0 then now else s.lastTime) : Int) : ℚ)), ⟨0, now⟩)) ∧
    (now - (if s.lastTime = 0 then now else s.lastTime) < 1000 →
      fpsRecord s now = (none, ⟨s.count + 1, if s.lastTime = 0 then now else s.lastTime⟩)) ∧
    (s.lastTime = 0 → (fpsRecord s now).2 = ⟨s.count + 1, now⟩) := by
  have hmain : fpsRecord s now =
      if 1000 ≤ now - (if s.lastTime = 0 then now else s.lastTime) then
        (some ((((s.count + 1 : Nat) : ℚ) * 1000) /
          ((now - (if s.lastTime = 0 then now else s.lastTime) : Int) : ℚ)), ⟨0, now⟩)
      else (none, ⟨s.count + 1, if s.lastTime = 0 then now else s.lastTime⟩) := rfl
  refine ⟨?_, ?_, ?_, ?_⟩
  · rw [hmain]
    by_cases hc : (1000 : Int) ≤ now - (if s.lastTime = 0 then now else s.lastTime)
    · rw [if_pos hc]
      simpa using hc
    · rw [if_neg hc]
      simpa using hc
  · intro hc
    rw [hmain, if_pos hc]
  · intro hc
    rw [hmain, if_neg (by omega)]
  · intro h0
    rw [hmain, h0]
    simp

/-- Witness for C8 in the reporting branch: 3 prior events, window start 500,
current time 2000. -/
theorem C8_witness :
    (1000 : Int) ≤ 2000 - (if (500 : Int) = 0 then 2000 else 500) ∧
    fpsRecord ⟨3, 500⟩ 2000 =
      (some ((((3 + 1 : Nat) : ℚ) * 1000) /
        ((2000 - (if (500 : Int) = 0 then (2000 : Int) else 500) : Int) : ℚ)), ⟨0, 2000⟩) :=
  ⟨by decide, (C8_fps_counter_window ⟨3, 500⟩ 2000).2.1 (by decide)⟩

lemma parse_some_shape (d : List Nat) (h : StreamInfo)
    (hp : parseMyirHeader d = some h) :
    h = ⟨be32 d 20, be16 d 28, be16 d 30, be32 d 24, be16 d 8, be16 d 10, be16 d 32⟩ ∧
    ¬ d.length < 36 ∧ be32 d 0 = MYIR_MAGIC ∧ getU8 d 4 = MYIR_VER := by
  rw [parseMyirHeader] at hp
  by_cases h1 : d.length < 36
  · rw [if_pos h1] at hp
    exact absurd hp (by simp)
  · rw [if_neg h1] at hp
    by_cases h2 : be32 d 0 ≠ MYIR_MAGIC
    · rw [if_pos h2] at hp
      exact absurd hp (by simp)
    · rw [if_neg h2] at hp
      by_cases h3 : getU8 d 4 ≠ MYIR_VER
      · rw [if_pos h3] at hp
        exact absurd hp (by simp)
      · rw [if_neg h3] at hp
        exact ⟨(Option.some.inj hp).symm, h1, not_not.mp h2, not_not.mp h3⟩

lemma parseLegacy_some_shape (d : List Nat) (g : StreamInfoLegacy)
    (hp : parseMyirHeaderLegacy d = some g) :
    g = ⟨be32 d 20, be16 d 28, be16 d 30, be32 d 24, be16 d 8, be16 d 10⟩ ∧
    ¬ d.length < 32 ∧ be32 d 0 = MYIR_MAGIC ∧ getU8 d 4 = MYIR_VER := by
  rw [parseMyirHeaderLegacy] at hp
  by_cases h1 : d.length < 32
  · rw [if_pos h1] at hp
    exact absurd hp (by simp)
  · rw [if_neg h1] at hp
    by_cases h2 : be32 d 0 ≠ MYIR_MAGIC
    · rw [if_pos h2] at hp
      exact absurd hp (by simp)
    · rw [if_neg h2] at hp
      by_cases h3 : getU8 d 4 ≠ MYIR_VER
      · rw [if_pos h3] at hp
        exact absurd hp (by simp)
      · rw [if_neg h3] at hp
        exact ⟨(Option.some.inj hp).symm, h1, not_not.mp h2, not_not.mp h3⟩

/-- C3 counterexample: a 36-byte datagram with the correct magic and version
but chunkId = 5, chunksTotal = 0 and frameSize = 0 is returned as a valid
header by the parser even though it violates all three declared header
invariants (chunkId < chunksTotal, frameSize > 0, chunksTotal > 0). -/
theorem C3_counterexample :
    parseMyirHeader [77, 89, 73, 82, 3, 0, 0, 0, 0, 0, 0, 0, 0, 0, 0, 0, 0, 0, 0, 0,
        0, 0, 0, 7, 0, 0, 0, 0, 0, 5, 0, 0, 0, 0, 0, 0] =
      some ⟨7, 5, 0, 0, 0, 0, 0⟩ ∧
    ¬ ((⟨7, 5, 0, 0, 0, 0, 0⟩ : StreamInfo).chunkId <
        (⟨7, 5, 0, 0, 0, 0, 0⟩ : StreamInfo).chunksTotal) ∧
    ¬ (0 < (⟨7, 5, 0, 0, 0, 0, 0⟩ : StreamInfo).frameSize) ∧
    ¬ (0 < (⟨7, 5, 0, 0, 0, 0, 0⟩ : StreamInfo).chunksTotal) := by
  decide

/-- C3, amended: the parser enforces only the minimum length, the magic and
the version; the declared header invariants chunkId < chunksTotal,
frameSize > 0 and chunksTotal > 0 are not checked, and a datagram violating
them still parses as valid. -/
theorem C3_parser_validates_only_magic_version_length (d : List Nat) (h : StreamInfo)
    (hp : parseMyirHeader d = some h) :
    36 ≤ d.length ∧ be32 d 0 = MYIR_MAGIC ∧ getU8 d 4 = MYIR_VER := by
  obtain ⟨-, h1, h2, h3⟩ := parse_some_shape d h hp
  exact ⟨by omega, h2, h3⟩

/-- Witness for the amended C3 theorem at a concrete valid datagram. -/
theorem C3_witness :
    parseMyirHeader [77, 89, 73, 82, 3, 0, 0, 0, 0, 2, 0, 2, 0, 0, 0, 0, 0, 0, 0, 0,
        0, 0, 0, 7, 0, 0, 0, 4, 0, 0, 0, 1, 0, 4, 0, 0, 9, 9, 9, 9] =
      some ⟨7, 0, 1, 4, 2, 2, 4⟩ ∧
    (36 ≤ ([77, 89, 73, 82, 3, 0, 0, 0, 0, 2, 0, 2, 0, 0, 0, 0, 0, 0, 0, 0,
        0, 0, 0, 7, 0, 0, 0, 4, 0, 0, 0, 1, 0, 4, 0, 0, 9, 9, 9, 9] : List Nat).length ∧
      be32 [77, 89, 73, 82, 3, 0, 0, 0, 0, 2, 0, 2, 0, 0, 0, 0, 0, 0, 0, 0,
        0, 0, 0, 7, 0, 0, 0, 4, 0, 0, 0, 1, 0, 4, 0, 0, 9, 9, 9, 9] 0 = MYIR_MAGIC ∧
      getU8 [77, 89, 73, 82, 3, 0, 0, 0, 0, 2, 0, 2, 0, 0, 0, 0, 0, 0, 0, 0,
        0, 0, 0, 7, 0, 0, 0, 4, 0, 0, 0, 1, 0, 4, 0, 0, 9, 9, 9, 9] 4 = MYIR_VER) :=
  ⟨by decide,
    C3_parser_validates_only_magic_version_length _ ⟨7, 0, 1, 4, 2, 2, 4⟩ (by decide)⟩

/-- C4: both parser variants return invalid exactly when the input is shorter
than the fixed header size (36 bytes extended, 32 bytes legacy), the 4-byte
magic mismatches, or the 1-byte version mismatches; on success every
multi-byte field is the big-endian decode at its fixed offset.  The embedding
is a total pure function, matching the never-raising decode of the source. -/
theorem C4_parse_failure_characterization (d e : List Nat) (h : StreamInfo)
    (g : StreamInfoLegacy) (hd : parseMyirHeader d = some h)
    (he : parseMyirHeaderLegacy e = some g) :
    (∀ x, parseMyirHeader x = none ↔
      (x.length < 36 ∨ be32 x 0 ≠ MYIR_MAGIC ∨ getU8 x 4 ≠ MYIR_VER)) ∧
    (∀ x, parseMyirHeaderLegacy x = none ↔
      (x.length < 32 ∨ be32 x 0 ≠ MYIR_MAGIC ∨ getU8 x 4 ≠ MYIR_VER)) ∧
    (h.width = be16 d 8 ∧ h.height = be16 d 10 ∧ h.frameId = be32 d 20 ∧
      h.frameSize = be32 d 24 ∧ h.chunkId = be16 d 28 ∧ h.chunksTotal = be16 d 30 ∧
      h.payloadLen = be16 d 32) ∧
    (g.width = be16 e 8 ∧ g.height = be16 e 10 ∧ g.frameId = be32 e 20 ∧
      g.frameSize = be32 e 24 ∧ g.chunkId = be16 e 28 ∧ g.chunksTotal = be16 e 30) := by
  refine ⟨?_, ?_, ?_, ?_⟩
  · intro x
    rw [parseMyirHeader]
    by_cases h1 : x.length < 36
    · simp [h1]
    · rw [if_neg h1]
      by_cases h2 : be32 x 0 ≠ MYIR_MAGIC
      · simp [h1, h2]
      · rw [if_neg h2]
        by_cases h3 : getU8 x 4 ≠ MYIR_VER
        · simp [h1, h2, h3]
        · simp [h1, h2, h3]
  · intro x
    rw [parseMyirHeaderLegacy]
    by_cases h1 : x.length < 32
    · simp [h1]
    · rw [if_neg h1]
      by_cases h2 : be32 x 0 ≠ MYIR_MAGIC
      · simp [h1, h2]
      · rw [if_neg h2]
        by_cases h3 : getU8 x 4 ≠ MYIR_VER
        · simp [h1, h2, h3]
        · simp [h1, h2, h3]
  · obtain ⟨rfl, -, -, -⟩ := parse_some_shape d h hd
    exact ⟨rfl, rfl, rfl, rfl, rfl, rfl, rfl⟩
  · obtain ⟨rfl, -, -, -⟩ := parseLegacy_some_shape e g he
    exact ⟨rfl, rfl, rfl, rfl, rfl, rfl⟩

/-- Witness for C4: the decoded fields of a concrete extended datagram and a
concrete 32-byte legacy datagram. -/
theorem C4_witness :
    parseMyirHeader c4Ext = some ⟨7, 0, 1, 4, 2, 2, 4⟩ ∧
    parseMyirHeaderLegacy c4Leg = some ⟨3, 1, 2, 5, 320, 240⟩ ∧
    (⟨7, 0, 1, 4, 2, 2, 4⟩ : StreamInfo).width = be16 c4Ext 8 ∧
    (⟨3, 1, 2, 5, 320, 240⟩ : StreamInfoLegacy).width = be16 c4Leg 8 :=
  ⟨by decide, by decide,
    (C4_parse_failure_characterization c4Ext c4Leg
      ⟨7, 0, 1, 4, 2, 2, 4⟩ ⟨3, 1, 2, 5, 320, 240⟩ (by decide) (by decide)).2.2.1.1,
    (C4_parse_failure_characterization c4Ext c4Leg
      ⟨7, 0, 1, 4, 2, 2, 4⟩ ⟨3, 1, 2, 5, 320, 240⟩ (by decide) (by decide)).2.2.2.1⟩

/-- C9: for any datagram whose header parses as valid, constructing the
payload view new Uint8Array(buffer, 36, payloadLen) stays in bounds exactly
when payloadLen is at most the datagram length minus 36; and there is a
concrete datagram — 36 bytes, valid magic and version, payloadLen = 1 — whose
header parses as valid but whose payload view raises the out-of-range error
(modelled as none), so the extended receive path is not total even though the
header parse itself never fails on it. -/
theorem C9_payload_view_out_of_range (bytes : List Nat) (h : StreamInfo)
    (hp : parseMyirHeader bytes = some h) :
    ((payloadView bytes h.payloadLen).isSome = true ↔
      h.payloadLen ≤ bytes.length - 36) ∧
    (parseMyirHeader c9Datagram = some ⟨9, 0, 1, 100, 0, 0, 1⟩ ∧
      (payloadView c9Datagram 1).isNone = true) := by
  obtain ⟨-, hlen, -, -⟩ := parse_some_shape bytes h hp
  refine ⟨?_, by decide, by decide⟩
  rw [payloadView]
  by_cases hc : 36 + h.payloadLen ≤ bytes.length
  · rw [if_pos hc]
    simp only [Option.isSome_some, true_iff]
    omega
  · rw [if_neg hc]
    simp only [Option.isSome_none, Bool.false_eq_true, false_iff]
    omega

/-- Witness for C9 at the very datagram that exhibits the raise. -/
theorem C9_witness :
    parseMyirHeader c9Datagram = some ⟨9, 0, 1, 100, 0, 0, 1⟩ ∧
    ((payloadView c9Datagram (⟨9, 0, 1, 100, 0, 0, 1⟩ : StreamInfo).payloadLen).isSome =
        true ↔
      (⟨9, 0, 1, 100, 0, 0, 1⟩ : StreamInfo).payloadLen ≤ c9Datagram.length - 36) :=
  ⟨by decide,
    (C9_payload_view_out_of_range c9Datagram ⟨9, 0, 1, 100, 0, 0, 1⟩ (by decide)).1⟩

/-- C10: a frame whose first header declares chunksTotal = 0 yields an
assembler that reports complete immediately (0 received = 0 total), yet every
addChunk call is rejected unchanged because every chunkId fails the
chunkId < chunksTotal guard; consequently every push for that frameId returns
null — completion is only ever reported through the return value of addChunk — and
the assembler stays in the frames table, whether the push created it or found
it already present. -/
theorem C10_zero_chunksTotal_never_emitted (h : StreamInfo) (r : Reassembler)
    (q : Bytes) (t : Int) (h0 : h.chunksTotal = 0) :
    (mkFrameAssembler h t).isComplete = true ∧
    (∀ (cid : Nat) (q' : Bytes) (t' : Int),
      (mkFrameAssembler h t).addChunk cid q' t' = (false, mkFrameAssembler h t)) ∧
    (mapGet r.frames h.frameId = none →
      (r.push h q t).1 = none ∧ mapGet (r.push h q t).2.frames h.frameId ≠ none) ∧
    (∀ a, mapGet r.frames h.frameId = some a → a.totalChunks = 0 →
      (r.push h q t).1 = none ∧ mapGet (r.push h q t).2.frames h.frameId ≠ none) := by
  have hmkTotal : (mkFrameAssembler h t).totalChunks = 0 := h0
  refine ⟨?_, ?_, ?_, ?_⟩
  · simp [mkFrameAssembler, FrameAssembler.isComplete, h0]
  · intro cid q' t'
    exact addChunk_reject _ cid q' t' (Or.inl (by omega))
  · intro hnone
    have hadd : (mkFrameAssembler h t).addChunk h.chunkId q t =
        (false, mkFrameAssembler h t) :=
      addChunk_reject _ _ q t (Or.inl (by omega))
    have hfst : (r.push h q t).1 = none := by
      rw [Reassembler.push, hnone]
      dsimp only
      rw [hadd]
      simp
    exact ⟨hfst, push_none_keeps_entry r h q t hfst⟩
  · intro a hsome ha0
    have hadd : a.addChunk h.chunkId q t = (false, a) :=
      addChunk_reject _ _ q t (Or.inl (by omega))
    have hfst : (r.push h q t).1 = none := by
      rw [Reassembler.push, hsome]
      dsimp only
      rw [hadd]
      simp
    exact ⟨hfst, push_none_keeps_entry r h q t hfst⟩

/-- Witness for C10 at a concrete chunksTotal = 0 header and an empty table. -/
theorem C10_witness :
    (⟨5, 0, 0, 9, 0, 0, 0⟩ : StreamInfo).chunksTotal = 0 ∧
    (mkFrameAssembler ⟨5, 0, 0, 9, 0, 0, 0⟩ 0).isComplete = true ∧
    (mapGet (⟨[], 4⟩ : Reassembler).frames (⟨5, 0, 0, 9, 0, 0, 0⟩ : StreamInfo).frameId =
        none →
      ((⟨[], 4⟩ : Reassembler).push ⟨5, 0, 0, 9, 0, 0, 0⟩ (Bytes.zeros 3) 0).1 = none ∧
      mapGet ((⟨[], 4⟩ : Reassembler).push ⟨5, 0, 0, 9, 0, 0, 0⟩
        (Bytes.zeros 3) 0).2.frames (⟨5, 0, 0, 9, 0, 0, 0⟩ : StreamInfo).frameId ≠ none) :=
  ⟨by decide,
    (C10_zero_chunksTotal_never_emitted ⟨5, 0, 0, 9, 0, 0, 0⟩ ⟨[], 4⟩
      (Bytes.zeros 3) 0 (by decide)).1,
    (C10_zero_chunksTotal_never_emitted ⟨5, 0, 0, 9, 0, 0, 0⟩ ⟨[], 4⟩
      (Bytes.zeros 3) 0 (by decide)).2.2.1⟩

end ElectraWS
